import Mathlib

/-!
Verification of the BlockX grid-slicing export pipeline.

The definitions below are a shallow embedding of the functions in
src/utils/imageProcessing.ts (`getViewportDimensions` and
`processAndDownload`).  JavaScript numbers are modelled as rationals,
JavaScript strings as Lean strings, and a JS `Set<number>` as its
insertion-ordered duplicate-free list of elements (`Array.from` on a JS
set returns exactly that list).
-/

namespace BlockX

/-- The viewport record `{width, height}` returned by `getViewportDimensions`. -/
structure Viewport where
  width : ℚ
  height : ℚ
deriving DecidableEq, Repr

/-- `getViewportDimensions(imgWidth, imgHeight, cropMode)` from
src/utils/imageProcessing.ts: in `square` mode both dimensions become
`Math.min(imgWidth, imgHeight)`; any other mode returns the inputs unchanged. -/
def getViewportDimensions (imgWidth imgHeight : ℚ) (cropMode : String) : Viewport :=
  if cropMode = "square" then
    let minDim := min imgWidth imgHeight
    { width := minDim, height := minDim }
  else
    { width := imgWidth, height := imgHeight }

/-- The scale factor computed in `processAndDownload`:
`Math.min(window.devicePixelRatio || 1, 2)`.  The argument `dpr` is the
host's device pixel ratio; `|| 1` replaces a falsy (zero) value by 1. -/
def resolutionScale (dpr : ℚ) : ℚ :=
  min (if dpr = 0 then 1 else dpr) 2

/-- Pixel dimensions of a canvas. -/
structure CanvasDims where
  width : ℚ
  height : ℚ
deriving DecidableEq, Repr

/-- The master canvas allocation in `processAndDownload`:
`canvasWidth = viewport.width * pixelRatio`, `canvasHeight = viewport.height * pixelRatio`. -/
def masterCanvasDims (viewport : Viewport) (dpr : ℚ) : CanvasDims :=
  { width := viewport.width * resolutionScale dpr
    height := viewport.height * resolutionScale dpr }

/-- Destination rectangle of a `drawImage` call. -/
structure DrawRect where
  x : ℚ
  y : ℚ
  width : ℚ
  height : ℚ
deriving DecidableEq, Repr

/-- The rectangle at which `processAndDownload` draws the source image onto the
master canvas: `drawWidth = img.width * scaleX * pixelRatio`,
`drawHeight = img.height * scaleY * pixelRatio`,
`baseX = (canvasWidth - drawWidth) / 2`, `baseY = (canvasHeight - drawHeight) / 2`,
`finalX = baseX + offsetX * canvasWidth`, `finalY = baseY + offsetY * canvasHeight`. -/
def drawImageRect (imgWidth imgHeight : ℚ) (cropMode : String)
    (scaleX scaleY offsetX offsetY dpr : ℚ) : DrawRect :=
  let r := resolutionScale dpr
  let viewport := getViewportDimensions imgWidth imgHeight cropMode
  let canvasWidth := viewport.width * r
  let canvasHeight := viewport.height * r
  let drawWidth := imgWidth * scaleX * r
  let drawHeight := imgHeight * scaleY * r
  let baseX := (canvasWidth - drawWidth) / 2
  let baseY := (canvasHeight - drawHeight) / 2
  { x := baseX + offsetX * canvasWidth
    y := baseY + offsetY * canvasHeight
    width := drawWidth
    height := drawHeight }

/-- The export set resolution in `processAndDownload`:
`selectedIndices.size > 0 ? Array.from(selectedIndices) : Array.from({length: totalSlices}, (_, i) => i)`.
A JS `Set` iterates in insertion order, so `Array.from` of the set is its
insertion-ordered element list, which is how `selectedIndices` is passed here. -/
def slicesToExport (selectedIndices : List ℕ) (totalSlices : ℕ) : List ℕ :=
  if 0 < selectedIndices.length then selectedIndices
  else List.range totalSlices

/-- JS `String.prototype.lastIndexOf` restricted to a single-character needle,
over the character list of the receiver: index of the last occurrence, or -1. -/
def jsLastIndexOf (l : List Char) (c : Char) : Int :=
  match l with
  | [] => -1
  | x :: xs =>
    let r := jsLastIndexOf xs c
    if 0 ≤ r then r + 1
    else if x = c then 0 else -1

/-- JS `s.substring(0, e)`: a negative end index clamps to 0 (empty result). -/
def jsSubstringFromZero (s : String) (e : Int) : String :=
  ⟨s.data.take e.toNat⟩

/-- `originalName.substring(0, originalName.lastIndexOf('.'))` from
`processAndDownload`'s base-name computation. -/
def stripExtension (originalName : String) : String :=
  jsSubstringFromZero originalName (jsLastIndexOf originalName.data '.')

/-- `const baseName = filePrefix || originalName.substring(0, originalName.lastIndexOf('.')) || 'sliced'`
(`||` on strings picks the first non-empty operand, else the last). -/
def baseName (filePref originalName : String) : String :=
  if filePref ≠ "" then filePref
  else if stripExtension originalName ≠ "" then stripExtension originalName
  else "sliced"

/-- `const ext = format === 'jpg' ? 'jpg' : format`. -/
def extOfFormat (format : String) : String :=
  if format = "jpg" then "jpg" else format

/-- `const row = Math.floor(index / cols)` (natural division). -/
def rowOfIndex (index cols : ℕ) : ℕ := index / cols

/-- `const col = index % cols`. -/
def colOfIndex (index cols : ℕ) : ℕ := index % cols

/-- The per-tile filename template from `processAndDownload`:
`` `${baseName}_${row + 1}_${col + 1}.${ext}` ``. -/
def sliceFilename (filePref originalName format : String) (index cols : ℕ) : String :=
  baseName filePref originalName ++ "_" ++ toString (rowOfIndex index cols + 1) ++ "_" ++
    toString (colOfIndex index cols + 1) ++ "." ++ extOfFormat format

/-- The archive name from `processAndDownload`: `` `${baseNameForZip}_grid.zip` ``. -/
def zipArchiveName (filePref originalName : String) : String :=
  baseName filePref originalName ++ "_grid.zip"

/-- The ordered list of filenames an export job produces when every cell
encodes successfully: one name per index of the resolved export set. -/
def exportFilenames (filePref originalName format : String)
    (selectedIndices : List ℕ) (rows cols : ℕ) : List String :=
  (slicesToExport selectedIndices (rows * cols)).map
    (fun i => sliceFilename filePref originalName format i cols)

/-- `const outputWidth = Math.max(1, Math.floor((sliceWidth - paddingLeft - paddingRight) * pixelRatio))`,
with `r` the already-computed resolution scale. -/
def outputWidth (sliceWidth padLeft padRight r : ℚ) : ℤ :=
  max 1 ⌊(sliceWidth - padLeft - padRight) * r⌋

/-- `const outputHeight = Math.max(1, Math.floor((sliceHeight - paddingTop - paddingBottom) * pixelRatio))`. -/
def outputHeight (sliceHeight padTop padBottom r : ℚ) : ℤ :=
  max 1 ⌊(sliceHeight - padTop - padBottom) * r⌋

/-- The effectful collaborators of one `processAndDownload` invocation,
abstracted: image loading and archive generation may fail with an exception,
the two `getContext('2d')` calls may return null, and `toBlob` for each cell
index yields `some` blob or `none` (a null blob). -/
structure JobEnv (Blob : Type) where
  loadResult : Except String Unit
  masterCtx : Bool
  sliceCtx : Bool
  encodeBlob : ℕ → Option Blob
  zipResult : Except String Unit

/-- The files accumulated by the slice loop of `processAndDownload`:
for each index, `toBlob` runs and `if (blob) zip.file(filename, blob)` —
a `none` (null) blob is skipped silently and the loop continues. -/
def collectSlices {Blob : Type} (encodeBlob : ℕ → Option Blob)
    (filePref originalName format : String) (cols : ℕ)
    (indices : List ℕ) : List (String × Blob) :=
  indices.filterMap fun i =>
    (encodeBlob i).map fun b => (sliceFilename filePref originalName format i cols, b)

/-- What a completed export job hands to the save collaborator. -/
structure JobOutput (Blob : Type) where
  files : List (String × Blob)
  archiveName : String
deriving DecidableEq, Repr

/-- The control flow of `processAndDownload`: load the image (a rejected load
throws), check the master canvas context (`if (!ctx) throw new Error("Could
not create canvas context")`), check the slice canvas context (`if (!sliceCtx)
throw new Error("Ctx error")`), run the slice loop skipping null blobs, then
generate the archive (whose failure throws).  The surrounding
`try/catch` logs and rethrows, so every thrown error propagates to the
caller unchanged and no archive is produced. -/
def runExportJob {Blob : Type} (env : JobEnv Blob)
    (filePref originalName format : String)
    (selectedIndices : List ℕ) (rows cols : ℕ) : Except String (JobOutput Blob) :=
  match env.loadResult with
  | Except.error e => Except.error e
  | Except.ok _ =>
    if env.masterCtx = false then Except.error "Could not create canvas context"
    else if env.sliceCtx = false then Except.error "Ctx error"
    else
      let files := collectSlices env.encodeBlob filePref originalName format cols
        (slicesToExport selectedIndices (rows * cols))
      match env.zipResult with
      | Except.error e => Except.error e
      | Except.ok _ =>
        Except.ok { files := files, archiveName := zipArchiveName filePref originalName }

/-- A concrete environment for evaluating the job model: every collaborator
succeeds except that cell index 1 encodes to a null blob; any other cell
encodes to its own index. -/
def sampleEnv : JobEnv ℕ :=
  { loadResult := Except.ok ()
    masterCtx := true
    sliceCtx := true
    encodeBlob := fun i => if i = 1 then none else some i
    zipResult := Except.ok () }

/-- JS `Math.round` on the non-negative values this code rounds:
`⌊q + 1/2⌋`. -/
def jsRound (q : ℚ) : ℤ := ⌊q + 1 / 2⌋

/-- The slice-loop progress reports of `processAndDownload`:
after each cell, `onProgress(Math.round((processedCount / slicesToExport.length) * 50))`
with `processedCount` running from 1 to the number of slices. -/
def sliceProgress (numSlices : ℕ) : List ℤ :=
  (List.range numSlices).map fun i : ℕ => jsRound (((i : ℚ) + 1) / (numSlices : ℚ) * 50)

/-- The archiving progress reports: for each `metadata.percent` value the
archive container reports, `onProgress(60 + Math.round(metadata.percent * 0.4))`. -/
def zipProgress (percents : List ℚ) : List ℤ :=
  percents.map fun p => 60 + jsRound (p * (2 / 5))

/-- Every value passed to `onProgress` during one export job, in order:
the slice-loop reports, then `onProgress(60)`, then the archiving reports,
then the final `onProgress(100)`. -/
def progressReports (numSlices : ℕ) (percents : List ℚ) : List ℤ :=
  sliceProgress numSlices ++ 60 :: (zipProgress percents ++ [100])

/-! ### Theorems about the claims -/

/-- Skipping the elements on which an option-valued function returns `none`
does not change a `filterMap` over that function. -/
theorem filterMap_option_filter_isSome {α β γ : Type} (f : α → Option β)
    (g : α → β → γ) (l : List α) :
    (l.filterMap fun a => (f a).map (g a)) =
      ((l.filter fun a => (f a).isSome).filterMap fun a => (f a).map (g a)) := by
  induction l with
  | nil => rfl
  | cons a l ih =>
    cases h : f a with
    | none => simp [List.filterMap_cons, List.filter_cons, h, ih]
    | some b => simp [List.filterMap_cons, List.filter_cons, h, ih]

/-- A `filterMap` over an option-valued function keeps exactly the elements
on which the function returns `some`. -/
theorem length_filterMap_option {α β γ : Type} (f : α → Option β)
    (g : α → β → γ) (l : List α) :
    (l.filterMap fun a => (f a).map (g a)).length =
      (l.filter fun a => (f a).isSome).length := by
  induction l with
  | nil => rfl
  | cons a l ih =>
    cases h : f a with
    | none => simp [List.filterMap_cons, List.filter_cons, h, ih]
    | some b => simp [List.filterMap_cons, List.filter_cons, h, ih]

/-- C8: for all positive natural dimensions, `getViewportDimensions` in
`square` mode returns equal width and height, both `min imgWidth imgHeight`,
and in `original` mode returns the inputs unchanged. -/
theorem C8_viewport_square_original (w h : ℚ) (hw : 0 < w) (hh : 0 < h) :
    getViewportDimensions w h "square" = { width := min w h, height := min w h } ∧
    getViewportDimensions w h "original" = { width := w, height := h } := by
  refine ⟨?_, ?_⟩ <;> simp [getViewportDimensions]

/-- Witness for C8 at the concrete dimensions 1200 × 900. -/
theorem C8_viewport_square_original_witness :
    (0 : ℚ) < 1200 ∧ (0 : ℚ) < 900 ∧
    (getViewportDimensions 1200 900 "square" = { width := min 1200 900, height := min 1200 900 } ∧
     getViewportDimensions 1200 900 "original" = { width := 1200, height := 900 }) :=
  ⟨by norm_num, by norm_num,
    C8_viewport_square_original 1200 900 (by norm_num) (by norm_num)⟩

/-- C10: `getViewportDimensions` is total over arbitrary crop-mode strings;
every mode other than exactly `square` returns the input dimensions unchanged,
with no error branch, and `square` is the only mode that alters them. -/
theorem C10_viewport_total_default (w h : ℚ) (cropMode : String)
    (hmode : cropMode ≠ "square") :
    getViewportDimensions w h cropMode = { width := w, height := h } ∧
    (w ≠ h → getViewportDimensions w h "square" ≠ { width := w, height := h }) := by
  constructor
  · simp [getViewportDimensions, hmode]
  · intro hwh hcontra
    have hrec : ({ width := min w h, height := min w h } : Viewport) =
        { width := w, height := h } := by
      simpa [getViewportDimensions] using hcontra
    have h1 : min w h = w := congrArg Viewport.width hrec
    have h2 : min w h = h := congrArg Viewport.height hrec
    exact hwh (h1.symm.trans h2)

/-- Witness for C10 at the unrecognised mode string `circle`. -/
theorem C10_viewport_total_default_witness :
    ("circle" : String) ≠ "square" ∧
    (getViewportDimensions 5 7 "circle" = { width := 5, height := 7 } ∧
     ((5 : ℚ) ≠ 7 → getViewportDimensions 5 7 "square" ≠ { width := 5, height := 7 })) :=
  ⟨by decide, C10_viewport_total_default 5 7 "circle" (by decide)⟩

/-- C7: the output raster of every cell measures
`max 1 ⌊(sliceWidth - padLeft - padRight) * r⌋` by
`max 1 ⌊(sliceHeight - padTop - padBottom) * r⌋`, and whenever the padded
width (resp. height) is non-positive the computed output dimension is
exactly 1, never 0 or negative. -/
theorem C7_output_size_clamp (sliceW sliceH padL padR padT padB r : ℚ)
    (hr : 0 < r) :
    outputWidth sliceW padL padR r = max 1 ⌊(sliceW - padL - padR) * r⌋ ∧
    outputHeight sliceH padT padB r = max 1 ⌊(sliceH - padT - padB) * r⌋ ∧
    (sliceW - padL - padR ≤ 0 → outputWidth sliceW padL padR r = 1) ∧
    (sliceH - padT - padB ≤ 0 → outputHeight sliceH padT padB r = 1) := by
  refine ⟨rfl, rfl, ?_, ?_⟩
  · intro hle
    have hmul : (sliceW - padL - padR) * r ≤ 0 :=
      mul_nonpos_iff.mpr (Or.inr ⟨hle, hr.le⟩)
    have hfl : ⌊(sliceW - padL - padR) * r⌋ ≤ 0 := Int.floor_nonpos hmul
    unfold outputWidth
    omega
  · intro hle
    have hmul : (sliceH - padT - padB) * r ≤ 0 :=
      mul_nonpos_iff.mpr (Or.inr ⟨hle, hr.le⟩)
    have hfl : ⌊(sliceH - padT - padB) * r⌋ ≤ 0 := Int.floor_nonpos hmul
    unfold outputHeight
    omega

/-- Witness for C7 at a grid whose padding collapses the cell:
slice 10 × 10, horizontal padding 6 + 5, vertical padding 4 + 3, scale 2. -/
theorem C7_output_size_clamp_witness :
    (0 : ℚ) < 2 ∧
    (outputWidth 10 6 5 2 = max 1 ⌊((10 : ℚ) - 6 - 5) * 2⌋ ∧
     outputHeight 10 4 3 2 = max 1 ⌊((10 : ℚ) - 4 - 3) * 2⌋ ∧
     ((10 : ℚ) - 6 - 5 ≤ 0 → outputWidth 10 6 5 2 = 1) ∧
     ((10 : ℚ) - 4 - 3 ≤ 0 → outputHeight 10 4 3 2 = 1)) :=
  ⟨by norm_num, C7_output_size_clamp 10 10 6 5 4 3 2 (by norm_num)⟩

/-- C9: the source image is drawn into the master raster at
`drawWidth = naturalWidth * scaleX * r`, `drawHeight = naturalHeight * scaleY * r`,
`x = (canvasWidth - drawWidth) / 2 + offsetX * canvasWidth`,
`y = (canvasHeight - drawHeight) / 2 + offsetY * canvasHeight`, where the
canvas dimensions are the viewport scaled by the resolution scale. -/
theorem C9_transform_rect (imgW imgH : ℚ) (cropMode : String)
    (sX sY oX oY dpr : ℚ) (hsX : 0 < sX) (hsY : 0 < sY) :
    (drawImageRect imgW imgH cropMode sX sY oX oY dpr).width =
      imgW * sX * resolutionScale dpr ∧
    (drawImageRect imgW imgH cropMode sX sY oX oY dpr).height =
      imgH * sY * resolutionScale dpr ∧
    (drawImageRect imgW imgH cropMode sX sY oX oY dpr).x =
      ((masterCanvasDims (getViewportDimensions imgW imgH cropMode) dpr).width -
          imgW * sX * resolutionScale dpr) / 2 +
        oX * (masterCanvasDims (getViewportDimensions imgW imgH cropMode) dpr).width ∧
    (drawImageRect imgW imgH cropMode sX sY oX oY dpr).y =
      ((masterCanvasDims (getViewportDimensions imgW imgH cropMode) dpr).height -
          imgH * sY * resolutionScale dpr) / 2 +
        oY * (masterCanvasDims (getViewportDimensions imgW imgH cropMode) dpr).height :=
  ⟨rfl, rfl, rfl, rfl⟩

/-- Witness for C9 on a 1200 × 900 image in `original` mode at
scale (1, 1), offset (0, 0), device pixel ratio 2. -/
theorem C9_transform_rect_witness :
    (0 : ℚ) < 1 ∧
    ((drawImageRect 1200 900 "original" 1 1 0 0 2).width =
        1200 * 1 * resolutionScale 2 ∧
     (drawImageRect 1200 900 "original" 1 1 0 0 2).height =
        900 * 1 * resolutionScale 2 ∧
     (drawImageRect 1200 900 "original" 1 1 0 0 2).x =
        ((masterCanvasDims (getViewportDimensions 1200 900 "original") 2).width -
            1200 * 1 * resolutionScale 2) / 2 +
          0 * (masterCanvasDims (getViewportDimensions 1200 900 "original") 2).width ∧
     (drawImageRect 1200 900 "original" 1 1 0 0 2).y =
        ((masterCanvasDims (getViewportDimensions 1200 900 "original") 2).height -
            900 * 1 * resolutionScale 2) / 2 +
          0 * (masterCanvasDims (getViewportDimensions 1200 900 "original") 2).height) :=
  ⟨by norm_num, C9_transform_rect 1200 900 "original" 1 1 0 0 2 (by norm_num) (by norm_num)⟩

/-- C3 counterexample: the scale applied to the master raster is
`min (devicePixelRatio or 1) 2`, which does depend on the display density —
at device pixel ratio 1 the scale is 1 while at ratio 2 it is 2, and the
master raster for a 100 × 50 viewport differs accordingly, refuting the
claim that the factor is fixed regardless of the device pixel ratio. -/
theorem C3_counterexample :
    resolutionScale 1 = 1 ∧ resolutionScale 2 = 2 ∧
    resolutionScale 1 ≠ resolutionScale 2 ∧
    masterCanvasDims { width := 100, height := 50 } 1 = { width := 100, height := 50 } ∧
    masterCanvasDims { width := 100, height := 50 } 2 = { width := 200, height := 100 } := by
  refine ⟨?_, ?_, ?_, ?_, ?_⟩ <;>
    simp [resolutionScale, masterCanvasDims] <;> norm_num

/-- C3 amended: the resolution scale is `min (devicePixelRatio or 1 if falsy) 2` —
it never exceeds 2 but does depend on the device pixel ratio — and the master
raster always measures `viewport.width * r` by `viewport.height * r` for that
scale `r`. -/
theorem C3_amended_scale_capped (dpr : ℚ) (viewport : Viewport) :
    resolutionScale dpr ≤ 2 ∧
    masterCanvasDims viewport dpr =
      { width := viewport.width * resolutionScale dpr
        height := viewport.height * resolutionScale dpr } ∧
    resolutionScale dpr = min (if dpr = 0 then 1 else dpr) 2 :=
  ⟨min_le_right _ _, rfl, rfl⟩

/-- C4: every per-tile blob is named `{base}_{row+1}_{col+1}.{ext}` with the
1-indexed row `index / cols` and column `index % cols`, the archive is named
`{base}_grid.zip`, `base` is `filePrefix` when non-empty, else the original
name with its extension stripped, else `sliced`, and `ext` is `jpg` for the
jpg format and the format name verbatim otherwise. -/
theorem C4_filenames (filePref originalName format : String) (index cols : ℕ) :
    sliceFilename filePref originalName format index cols =
      baseName filePref originalName ++ "_" ++ toString (index / cols + 1) ++ "_" ++
        toString (index % cols + 1) ++ "." ++ extOfFormat format ∧
    zipArchiveName filePref originalName = baseName filePref originalName ++ "_grid.zip" ∧
    (filePref ≠ "" → baseName filePref originalName = filePref) ∧
    (filePref = "" → stripExtension originalName ≠ "" →
      baseName filePref originalName = stripExtension originalName) ∧
    (filePref = "" → stripExtension originalName = "" →
      baseName filePref originalName = "sliced") ∧
    extOfFormat "jpg" = "jpg" ∧
    (format ≠ "jpg" → extOfFormat format = format) := by
  refine ⟨rfl, rfl, ?_, ?_, ?_, rfl, ?_⟩
  · intro h
    simp [baseName, h]
  · intro h1 h2
    simp [baseName, h1, h2]
  · intro h1 h2
    simp [baseName, h1, h2]
  · intro h
    simp [extOfFormat, h]

/-- Witness for C4 with an empty prefix, original name `photo.png`,
format `webp`, cell index 5 on 2 columns (row 3, column 2, 1-indexed). -/
theorem C4_filenames_witness :
    baseName "" "photo.png" = "photo" ∧
    extOfFormat "webp" = "webp" ∧
    sliceFilename "" "photo.png" "webp" 5 2 = "photo_3_2.webp" ∧
    zipArchiveName "" "photo.png" = "photo_grid.zip" := by
  have h := C4_filenames "" "photo.png" "webp" 5 2
  refine ⟨?_, h.2.2.2.2.2.2 (by decide), by decide, by decide⟩
  rw [h.2.2.2.1 rfl (by decide)]
  decide

/-- C2 counterexample: on a 2 × 2 grid, the full selection set inserted in
the order 1, 0, 2, 3 resolves to exactly that insertion-ordered list, which
differs from the ascending list `[0, 1, 2, 3]` the empty selection resolves
to — so the round trip fails as an equality of ordered index lists for a
selection set containing all indices. -/
theorem C2_counterexample :
    ([1, 0, 2, 3] : List ℕ).Perm (List.range (2 * 2)) ∧
    slicesToExport [1, 0, 2, 3] (2 * 2) = [1, 0, 2, 3] ∧
    slicesToExport [] (2 * 2) = [0, 1, 2, 3] ∧
    slicesToExport [1, 0, 2, 3] (2 * 2) ≠ slicesToExport [] (2 * 2) := by
  refine ⟨?_, ?_, ?_, ?_⟩ <;> decide

/-- C2 amended: an empty selection set resolves to all `rows * cols` indices
`0 .. rows*cols - 1` in ascending order — never to an empty export.  A
selection set containing all indices resolves to its own insertion-ordered
list, so it exports the same index list as the empty selection only up to
permutation in general, and as the same ordered list exactly when the
indices were inserted in ascending order. -/
theorem C2_empty_selection_round_trip (rows cols : ℕ) (sel : List ℕ)
    (hrows : 1 ≤ rows) (hcols : 1 ≤ cols)
    (hperm : sel.Perm (List.range (rows * cols))) :
    slicesToExport [] (rows * cols) = List.range (rows * cols) ∧
    (slicesToExport [] (rows * cols)).length = rows * cols ∧
    List.Sorted (· < ·) (slicesToExport [] (rows * cols)) ∧
    slicesToExport [] (rows * cols) ≠ [] ∧
    slicesToExport sel (rows * cols) = sel ∧
    (slicesToExport sel (rows * cols)).Perm (slicesToExport [] (rows * cols)) ∧
    (sel = List.range (rows * cols) →
      slicesToExport sel (rows * cols) = slicesToExport [] (rows * cols)) := by
  have hn : 0 < rows * cols := Nat.mul_pos hrows hcols
  have h0 : slicesToExport [] (rows * cols) = List.range (rows * cols) := by
    simp [slicesToExport]
  have hlen : sel.length = rows * cols := by
    rw [hperm.length_eq, List.length_range]
  have hsel : slicesToExport sel (rows * cols) = sel := by
    simp [slicesToExport, hlen, hn]
  refine ⟨h0, ?_, ?_, ?_, hsel, ?_, ?_⟩
  · rw [h0, List.length_range]
  · rw [h0]
    exact List.sorted_lt_range _
  · rw [h0]
    simp [List.range_eq_nil]
    omega
  · rw [hsel, h0]
    exact hperm
  · intro hasc
    rw [hsel, h0, hasc]

/-- Witness for C2 amended on a 2 × 2 grid, with the full set inserted in
the non-ascending order 1, 0, 2, 3. -/
theorem C2_empty_selection_round_trip_witness :
    1 ≤ 2 ∧ ([1, 0, 2, 3] : List ℕ).Perm (List.range (2 * 2)) ∧
    (slicesToExport [] (2 * 2) = List.range (2 * 2) ∧
     (slicesToExport [] (2 * 2)).length = 2 * 2 ∧
     List.Sorted (· < ·) (slicesToExport [] (2 * 2)) ∧
     slicesToExport [] (2 * 2) ≠ [] ∧
     slicesToExport [1, 0, 2, 3] (2 * 2) = [1, 0, 2, 3] ∧
     (slicesToExport [1, 0, 2, 3] (2 * 2)).Perm (slicesToExport [] (2 * 2)) ∧
     ([1, 0, 2, 3] = List.range (2 * 2) →
       slicesToExport [1, 0, 2, 3] (2 * 2) = slicesToExport [] (2 * 2))) :=
  ⟨by decide, by decide,
    C2_empty_selection_round_trip 2 2 [1, 0, 2, 3] (by decide) (by decide) (by decide)⟩

/-- C1 counterexample: the export set is `Array.from` of the selection set,
which iterates in insertion order without sorting, and cell index 3 on a
2 × 2 grid is row 2, column 2.  So for the selection {0, 3} the produced
names are `name_1_1.ext` and `name_2_2.ext` — not `name_2_1.ext` — and with
insertion order 3 then 0 they come out reversed, refuting both the claimed
file list and its insertion-order independence. -/
theorem C1_counterexample :
    exportFilenames "name" "" "ext" [0, 3] 2 2 = ["name_1_1.ext", "name_2_2.ext"] ∧
    exportFilenames "name" "" "ext" [3, 0] 2 2 = ["name_2_2.ext", "name_1_1.ext"] ∧
    exportFilenames "name" "" "ext" [0, 3] 2 2 ≠ ["name_1_1.ext", "name_2_1.ext"] ∧
    exportFilenames "name" "" "ext" [3, 0] 2 2 ≠ ["name_1_1.ext", "name_2_1.ext"] := by
  refine ⟨?_, ?_, ?_, ?_⟩ <;> decide

/-- C1 amended: for every non-empty selection set the export iterates exactly
the selected cells in the set's insertion order (not in ascending numeric
order), so for the selection {0, 3} on a 2 × 2 grid it produces exactly two
output files, `name_1_1.ext` and `name_2_2.ext`, as a pair independent of
insertion order, but sequenced in whatever order the indices were inserted. -/
theorem C1_amended_insertion_order (sel : List ℕ) (hsel : sel.Perm [0, 3]) :
    (∀ (s : List ℕ) (t : ℕ), s ≠ [] → slicesToExport s t = s) ∧
    slicesToExport sel (2 * 2) = sel ∧
    exportFilenames "name" "" "ext" sel 2 2 =
      sel.map (fun i => sliceFilename "name" "" "ext" i 2) ∧
    (exportFilenames "name" "" "ext" sel 2 2).Perm ["name_1_1.ext", "name_2_2.ext"] ∧
    (exportFilenames "name" "" "ext" sel 2 2).length = 2 := by
  have hinsert : ∀ (s : List ℕ) (t : ℕ), s ≠ [] → slicesToExport s t = s := by
    intro s t hs
    simp [slicesToExport, List.length_pos, hs]
  have hlen := hsel.length_eq
  have hne : sel ≠ [] := by
    intro h
    rw [h] at hlen
    simp at hlen
  have hsl : slicesToExport sel (2 * 2) = sel := hinsert sel (2 * 2) hne
  have hmap : exportFilenames "name" "" "ext" sel 2 2 =
      sel.map (fun i => sliceFilename "name" "" "ext" i 2) := by
    unfold exportFilenames
    rw [hsl]
  have hperm : (exportFilenames "name" "" "ext" sel 2 2).Perm
      ["name_1_1.ext", "name_2_2.ext"] := by
    rw [hmap]
    have h2 := hsel.map (fun i => sliceFilename "name" "" "ext" i 2)
    have h3 : [0, 3].map (fun i => sliceFilename "name" "" "ext" i 2) =
        ["name_1_1.ext", "name_2_2.ext"] := by decide
    rw [h3] at h2
    exact h2
  exact ⟨hinsert, hsl, hmap, hperm, by rw [hperm.length_eq]; rfl⟩

/-- Witness for C1 amended, with the selection {0, 3} inserted as 3 then 0. -/
theorem C1_amended_insertion_order_witness :
    ([3, 0] : List ℕ).Perm [0, 3] ∧
    ((∀ (s : List ℕ) (t : ℕ), s ≠ [] → slicesToExport s t = s) ∧
     slicesToExport [3, 0] (2 * 2) = [3, 0] ∧
     exportFilenames "name" "" "ext" [3, 0] 2 2 =
       [3, 0].map (fun i => sliceFilename "name" "" "ext" i 2) ∧
     (exportFilenames "name" "" "ext" [3, 0] 2 2).Perm
       ["name_1_1.ext", "name_2_2.ext"] ∧
     (exportFilenames "name" "" "ext" [3, 0] 2 2).length = 2) :=
  ⟨by decide, C1_amended_insertion_order [3, 0] (by decide)⟩

/-- C5: a cell whose encode yields a null blob is silently skipped — the
accumulated files are the same as if the export set had been filtered to the
successfully encoding cells, each successful encode contributes its named
blob, and the job still completes; every exception (image load, either
canvas context, archive generation) propagates to the caller as the job's
error, with no archive output emitted. -/
theorem C5_null_skip_errors_propagate {Blob : Type} (env : JobEnv Blob)
    (filePref originalName format : String)
    (sel : List ℕ) (rows cols : ℕ) :
    (env.loadResult = Except.ok () → env.masterCtx = true → env.sliceCtx = true →
      env.zipResult = Except.ok () →
      runExportJob env filePref originalName format sel rows cols =
        Except.ok
          { files := collectSlices env.encodeBlob filePref originalName format cols
              (slicesToExport sel (rows * cols))
            archiveName := zipArchiveName filePref originalName }) ∧
    (∀ idx : List ℕ,
      collectSlices env.encodeBlob filePref originalName format cols idx =
        collectSlices env.encodeBlob filePref originalName format cols
          (idx.filter fun i => (env.encodeBlob i).isSome)) ∧
    (∀ idx : List ℕ,
      (collectSlices env.encodeBlob filePref originalName format cols idx).length =
        (idx.filter fun i => (env.encodeBlob i).isSome).length) ∧
    (∀ (idx : List ℕ) (i : ℕ) (b : Blob), i ∈ idx → env.encodeBlob i = some b →
      (sliceFilename filePref originalName format i cols, b) ∈
        collectSlices env.encodeBlob filePref originalName format cols idx) ∧
    (∀ e, env.loadResult = Except.error e →
      runExportJob env filePref originalName format sel rows cols = Except.error e) ∧
    (env.loadResult = Except.ok () → env.masterCtx = false →
      runExportJob env filePref originalName format sel rows cols =
        Except.error "Could not create canvas context") ∧
    (env.loadResult = Except.ok () → env.masterCtx = true → env.sliceCtx = false →
      runExportJob env filePref originalName format sel rows cols =
        Except.error "Ctx error") ∧
    (∀ e, env.loadResult = Except.ok () → env.masterCtx = true → env.sliceCtx = true →
      env.zipResult = Except.error e →
      runExportJob env filePref originalName format sel rows cols = Except.error e) := by
  refine ⟨?_, ?_, ?_, ?_, ?_, ?_, ?_, ?_⟩
  · intro h1 h2 h3 h4
    simp [runExportJob, h1, h2, h3, h4]
  · intro idx
    exact filterMap_option_filter_isSome env.encodeBlob _ idx
  · intro idx
    exact length_filterMap_option env.encodeBlob _ idx
  · intro idx i b hi hb
    exact List.mem_filterMap.mpr ⟨i, hi, by simp [hb]⟩
  · intro e he
    simp [runExportJob, he]
  · intro h1 h2
    simp [runExportJob, h1, h2]
  · intro h1 h2 h3
    simp [runExportJob, h1, h2, h3]
  · intro e h1 h2 h3 h4
    simp [runExportJob, h1, h2, h3, h4]

/-- Witness for C5: in `sampleEnv`, cell 1 of the full 2 × 2 export yields a
null blob; the job still succeeds and the archive holds exactly the other
three named blobs. -/
theorem C5_null_skip_errors_propagate_witness :
    sampleEnv.loadResult = Except.ok () ∧ sampleEnv.masterCtx = true ∧
    sampleEnv.sliceCtx = true ∧ sampleEnv.zipResult = Except.ok () ∧
    runExportJob sampleEnv "name" "" "ext" [] 2 2 =
      Except.ok
        { files := [("name_1_1.ext", 0), ("name_2_1.ext", 2), ("name_2_2.ext", 3)]
          archiveName := "name_grid.zip" } := by
  have h := C5_null_skip_errors_propagate sampleEnv "name" "" "ext" [] 2 2
  refine ⟨rfl, rfl, rfl, rfl, ?_⟩
  rw [h.1 rfl rfl rfl rfl]
  have hfiles : collectSlices sampleEnv.encodeBlob "name" "" "ext" 2
      (slicesToExport [] (2 * 2)) =
      [("name_1_1.ext", 0), ("name_2_1.ext", 2), ("name_2_2.ext", 3)] := by decide
  rw [hfiles]
  have hzip : zipArchiveName "name" "" = "name_grid.zip" := by decide
  rw [hzip]

/-- `jsRound` is monotone. -/
theorem jsRound_mono {p q : ℚ} (h : p ≤ q) : jsRound p ≤ jsRound q :=
  Int.floor_le_floor (by linarith)

/-- Lower bound for `jsRound`. -/
theorem le_jsRound {q : ℚ} {b : ℤ} (h : (b : ℚ) ≤ q + 1 / 2) : b ≤ jsRound q :=
  Int.le_floor.mpr h

/-- Upper bound for `jsRound`. -/
theorem jsRound_le {q : ℚ} {b : ℤ} (h : q + 1 / 2 < (b : ℚ) + 1) : jsRound q ≤ b := by
  have hlt : ⌊q + 1 / 2⌋ < b + 1 := Int.floor_lt.mpr (by push_cast; linarith)
  unfold jsRound
  omega

/-- Slice-loop progress values lie in 0–50. -/
theorem sliceProgress_mem_bounds (n : ℕ) (hn : 0 < n) :
    ∀ v ∈ sliceProgress n, 0 ≤ v ∧ v ≤ 50 := by
  intro v hv
  rw [sliceProgress, List.mem_map] at hv
  obtain ⟨i, hi, rfl⟩ := hv
  rw [List.mem_range] at hi
  have hnq : (0 : ℚ) < n := by exact_mod_cast hn
  have hq0 : (0 : ℚ) ≤ ((i : ℚ) + 1) / n * 50 := by positivity
  have hq1 : ((i : ℚ) + 1) / n ≤ 1 := by
    rw [div_le_one hnq]
    exact_mod_cast Nat.succ_le_of_lt hi
  have hq2 : ((i : ℚ) + 1) / n * 50 ≤ 50 := by nlinarith
  exact ⟨le_jsRound (by push_cast; linarith), jsRound_le (by push_cast; linarith)⟩

/-- Slice-loop progress values are non-decreasing. -/
theorem sliceProgress_chain (n : ℕ) : (sliceProgress n).Chain' (· ≤ ·) := by
  unfold sliceProgress
  rw [List.chain'_map]
  refine List.Chain'.imp ?_ (List.sorted_lt_range n).chain'
  intro a b hab
  apply jsRound_mono
  rw [div_eq_mul_inv, div_eq_mul_inv]
  have hinv : (0 : ℚ) ≤ (n : ℚ)⁻¹ := by positivity
  have hd : ((a : ℚ) + 1) ≤ ((b : ℚ) + 1) := by
    have : (a : ℚ) ≤ (b : ℚ) := by exact_mod_cast hab.le
    linarith
  exact mul_le_mul_of_nonneg_right (mul_le_mul_of_nonneg_right hd hinv) (by norm_num)

/-- Archiving progress values lie in 60–100 when the container reports
fractions in 0–100. -/
theorem zipProgress_mem_bounds (ps : List ℚ) (hps : ∀ p ∈ ps, 0 ≤ p ∧ p ≤ 100) :
    ∀ v ∈ zipProgress ps, 60 ≤ v ∧ v ≤ 100 := by
  intro v hv
  simp only [zipProgress, List.mem_map] at hv
  obtain ⟨p, hp, rfl⟩ := hv
  obtain ⟨hp0, hp1⟩ := hps p hp
  have h0 : (0 : ℚ) ≤ p * (2 / 5) := by positivity
  have h1 : p * (2 / 5) ≤ 40 := by nlinarith
  have hlo : (0 : ℤ) ≤ jsRound (p * (2 / 5)) := le_jsRound (by push_cast; linarith)
  have hhi : jsRound (p * (2 / 5)) ≤ 40 := jsRound_le (by push_cast; linarith)
  omega

/-- Archiving progress values are non-decreasing when the container's
reported fractions are. -/
theorem zipProgress_chain (ps : List ℚ) (hc : ps.Chain' (· ≤ ·)) :
    (zipProgress ps).Chain' (· ≤ ·) := by
  unfold zipProgress
  rw [List.chain'_map]
  refine hc.imp ?_
  intro a b hab
  have := jsRound_mono (mul_le_mul_of_nonneg_right hab (by norm_num : (0 : ℚ) ≤ 2 / 5))
  omega

/-- C6: within one export job every reported progress value is an integer
between 0 and 100 and the reported sequence is monotonically non-decreasing;
slice-loop reports lie in 0–50 with the i-th completed cell reporting
`round((i / cellsRequested) * 50)`, and archiving reports lie in 60–100 —
given that the archive container reports fractions in 0–100 that are
themselves non-decreasing. -/
theorem C6_progress_reports (n : ℕ) (ps : List ℚ) (hn : 0 < n)
    (hps : ∀ p ∈ ps, 0 ≤ p ∧ p ≤ 100) (hchain : ps.Chain' (· ≤ ·)) :
    (∀ v ∈ progressReports n ps, 0 ≤ v ∧ v ≤ 100) ∧
    (progressReports n ps).Chain' (· ≤ ·) ∧
    (∀ v ∈ sliceProgress n, 0 ≤ v ∧ v ≤ 50) ∧
    (∀ i, i < n → (sliceProgress n)[i]? =
      some (jsRound (((i : ℚ) + 1) / (n : ℚ) * 50))) ∧
    (∀ v ∈ 60 :: (zipProgress ps ++ [100]), 60 ≤ v ∧ v ≤ 100) := by
  have hsb := sliceProgress_mem_bounds n hn
  have hzb := zipProgress_mem_bounds ps hps
  have harc : ∀ v ∈ 60 :: (zipProgress ps ++ [100]), 60 ≤ v ∧ v ≤ 100 := by
    intro v hv
    rcases List.mem_cons.mp hv with rfl | hv
    · omega
    · rcases List.mem_append.mp hv with hv | hv
      · exact hzb v hv
      · simp only [List.mem_singleton] at hv
        omega
  have h1 : (zipProgress ps ++ [100]).Chain' (· ≤ ·) := by
    refine List.Chain'.append (zipProgress_chain ps hchain) (List.chain'_singleton 100) ?_
    intro x hx y hy
    simp only [List.head?_cons, Option.mem_def, Option.some.injEq] at hy
    subst hy
    have hx' : x ∈ zipProgress ps := by
      rcases List.mem_getLast?_eq_getLast hx with ⟨hne, rfl⟩
      exact List.getLast_mem hne
    exact (hzb x hx').2
  have h2 : (60 :: (zipProgress ps ++ [100])).Chain' (· ≤ ·) := by
    rw [List.chain'_cons']
    refine ⟨?_, h1⟩
    intro y hy
    cases hzp : zipProgress ps with
    | nil =>
      rw [hzp] at hy
      simp only [List.nil_append, List.head?_cons, Option.mem_def, Option.some.injEq] at hy
      omega
    | cons a l =>
      rw [hzp] at hy
      simp only [List.cons_append, List.head?_cons, Option.mem_def, Option.some.injEq] at hy
      have ha : a ∈ zipProgress ps := by
        rw [hzp]
        exact List.mem_cons_self a l
      have := (hzb a ha).1
      omega
  have h3 : (progressReports n ps).Chain' (· ≤ ·) := by
    unfold progressReports
    refine List.Chain'.append (sliceProgress_chain n) h2 ?_
    intro x hx y hy
    simp only [List.head?_cons, Option.mem_def, Option.some.injEq] at hy
    subst hy
    have hx' : x ∈ sliceProgress n := by
      rcases List.mem_getLast?_eq_getLast hx with ⟨hne, rfl⟩
      exact List.getLast_mem hne
    have := (hsb x hx').2
    omega
  refine ⟨?_, h3, hsb, ?_, harc⟩
  · intro v hv
    unfold progressReports at hv
    rcases List.mem_append.mp hv with hv | hv
    · have := hsb v hv
      omega
    · have := harc v hv
      omega
  · intro i hi
    simp [sliceProgress, List.getElem?_map, List.getElem?_range hi]

/-- Witness for C6 with 2 cells and archive fractions 0, 50, 100. -/
theorem C6_progress_reports_witness :
    0 < 2 ∧ (∀ p ∈ [(0 : ℚ), 50, 100], 0 ≤ p ∧ p ≤ 100) ∧
    ([(0 : ℚ), 50, 100].Chain' (· ≤ ·)) ∧
    ((∀ v ∈ progressReports 2 [(0 : ℚ), 50, 100], 0 ≤ v ∧ v ≤ 100) ∧
     (progressReports 2 [(0 : ℚ), 50, 100]).Chain' (· ≤ ·) ∧
     (∀ v ∈ sliceProgress 2, 0 ≤ v ∧ v ≤ 50) ∧
     (∀ i : ℕ, i < 2 → (sliceProgress 2)[i]? =
       some (jsRound (((i : ℚ) + 1) / ((2 : ℕ) : ℚ) * 50))) ∧
     (∀ v ∈ 60 :: (zipProgress [(0 : ℚ), 50, 100] ++ [100]), 60 ≤ v ∧ v ≤ 100)) := by
  have h1 : 0 < 2 := by norm_num
  have h2 : ∀ p ∈ [(0 : ℚ), 50, 100], 0 ≤ p ∧ p ≤ 100 := by
    intro p hp
    fin_cases hp <;> norm_num
  have h3 : ([(0 : ℚ), 50, 100]).Chain' (· ≤ ·) := by
    rw [List.chain'_cons, List.chain'_cons]
    exact ⟨by norm_num, by norm_num, List.chain'_singleton _⟩
  exact ⟨h1, h2, h3, C6_progress_reports 2 [0, 50, 100] h1 h2 h3⟩

end BlockX
